import Mathlib

/-!
Verification of the dbt module / utility layer.

Strings from the Go source are modelled as `List Char` where character-level
reasoning is needed (the `util` package helpers) and as Lean `String`
elsewhere.  Subprocess invocations (`exec.Command`) are modelled by an
explicit oracle mapping a program name and argument list to the captured
stdout, stderr, exit status and error text, so every function of the
source becomes a pure Lean function of that oracle.  `log.Fatal`, which
unconditionally terminates the process, is modelled as a dedicated
`fatalExit` result constructor.
-/

namespace Dbt

/-- Model of Go `strings.HasPrefix(str, pre)`: `pre` is a prefix of `str`.
First argument is the string, second the candidate prefix. -/
def hasPrefix : List Char → List Char → Bool
  | _, [] => true
  | [], _ :: _ => false
  | c :: cs, p :: ps => c == p && hasPrefix cs ps

/-- Model of Go `strings.HasSuffix(s, suf)`. -/
def hasSuffix (s suf : List Char) : Bool :=
  hasPrefix s.reverse suf.reverse

/-- Model of Go `strings.TrimSuffix(s, suf)`: drops a single trailing
occurrence of `suf` when present (`s[:len(s)-len(suf)]`). -/
def trimSuffix (s suf : List Char) : List Char :=
  if hasSuffix s suf then s.take (s.length - suf.length) else s

/-- Model of `util.CutPrefix` (src/unnamed/part_000, lines 35-40):
if `strings.HasPrefix(str, pre)` then `(str[len(pre):], true)` else
`(str, false)`. -/
def CutPrefix (str pre : List Char) : List Char × Bool :=
  if hasPrefix str pre then (str.drop pre.length, true) else (str, false)

theorem hasPrefix_iff (str pre : List Char) :
    hasPrefix str pre = true ↔ pre <+: str := by
  induction pre generalizing str with
  | nil => simp [hasPrefix]
  | cons p ps ih =>
    cases str with
    | nil => simp [hasPrefix]
    | cons c cs =>
      simp only [hasPrefix, Bool.and_eq_true, beq_iff_eq]
      constructor
      · rintro ⟨rfl, h⟩
        exact List.cons_prefix_cons.mpr ⟨rfl, (ih cs).mp h⟩
      · intro h
        obtain ⟨he, ht⟩ := List.cons_prefix_cons.mp h
        exact ⟨he.symm, (ih cs).mpr ht⟩

theorem prefix_append_drop {pre str : List Char} (h : pre <+: str) :
    pre ++ str.drop pre.length = str := by
  obtain ⟨t, rfl⟩ := h
  rw [List.drop_left]

/-- Claim C10: for every string `str` and candidate `pre`,
`CutPrefix str pre` returns `(rest, true)` with `pre ++ rest = str` when
`pre` is a prefix of `str`, and `(str, false)` otherwise; in particular
cutting the empty prefix always returns `(str, true)`. -/
theorem cutPrefix_spec (str pre : List Char) :
    (pre <+: str →
      CutPrefix str pre = (str.drop pre.length, true) ∧
      pre ++ (CutPrefix str pre).1 = str) ∧
    (¬ pre <+: str → CutPrefix str pre = (str, false)) ∧
    CutPrefix str [] = (str, true) := by
  refine ⟨fun h => ?_, fun h => ?_, ?_⟩
  · have hb : hasPrefix str pre = true := (hasPrefix_iff str pre).mpr h
    rw [CutPrefix, if_pos hb]
    exact ⟨rfl, prefix_append_drop h⟩
  · have hb : hasPrefix str pre = false := by
      cases hh : hasPrefix str pre with
      | true => exact absurd ((hasPrefix_iff str pre).mp hh) h
      | false => rfl
    rw [CutPrefix, if_neg (by simp [hb])]
  · rw [CutPrefix]
    have : hasPrefix str [] = true := by cases str <;> rfl
    rw [if_pos this]
    simp

/-- Concrete instantiation of `cutPrefix_spec` at `str = "abc"`,
`pre = "ab"` (matching case) and `pre = "zz"` (non-matching case). -/
theorem cutPrefix_spec_witness :
    (CutPrefix ['a', 'b', 'c'] ['a', 'b'] = (['c'], true) ∧
      ['a', 'b'] ++ (CutPrefix ['a', 'b', 'c'] ['a', 'b']).1 = ['a', 'b', 'c']) ∧
    CutPrefix ['a', 'b', 'c'] ['z', 'z'] = (['a', 'b', 'c'], false) := by
  refine ⟨?_, ?_⟩
  · have h := (cutPrefix_spec ['a', 'b', 'c'] ['a', 'b']).1 (by decide)
    exact ⟨h.1, h.2⟩
  · exact (cutPrefix_spec ['a', 'b', 'c'] ['z', 'z']).2.1 (by decide)

/-- Strips trailing `'/'` characters, as the loop at the start of Go
`path.Base` does. -/
def dropTrailingSlashes (l : List Char) : List Char :=
  (l.reverse.dropWhile (fun c => c == '/')).reverse

/-- The segment after the final `'/'` (the whole string when it holds no
`'/'`), as `path[strings.LastIndex(path, "/")+1:]` computes in Go
`path.Base`. -/
def afterLastSlash (l : List Char) : List Char :=
  (l.reverse.takeWhile (fun c => c != '/')).reverse

/-- Model of Go `path.Base`: `"."` for the empty path, otherwise strip
trailing slashes, keep everything after the last remaining slash, and
answer `"/"` when nothing is left (the path was all slashes). -/
def pathBase (l : List Char) : List Char :=
  if l = [] then ['.']
  else
    let t := dropTrailingSlashes l
    let b := afterLastSlash t
    if b = [] then ['/'] else b

def dotGit : List Char := ['.', 'g', 'i', 't']

/-- Model of `JujutsuModule.Name` (src/unnamed/part_001, lines 30-32) as a
function of the module's source URL:
`strings.TrimSuffix(path.Base(m.URL()), ".git")`. -/
def Name (url : List Char) : List Char :=
  trimSuffix (pathBase url) dotGit

/-- Modelled from the spec's words for the module name: the last path
component of the URL (its segment after the final slash) with a trailing
`".git"` suffix removed. -/
def specModuleName (url : List Char) : List Char :=
  trimSuffix (afterLastSlash url) dotGit

theorem dropTrailingSlashes_eq_self {l : List Char}
    (h : l.getLast? ≠ some '/') : dropTrailingSlashes l = l := by
  rw [dropTrailingSlashes]
  cases hr : l.reverse with
  | nil => simpa using congrArg List.reverse hr
  | cons c r =>
    have hc : c ≠ '/' := by
      intro hceq
      apply h
      rw [← List.head?_reverse, hr, hceq]
      rfl
    rw [List.dropWhile_cons, if_neg (by simp [hc]), ← hr, List.reverse_reverse]

theorem afterLastSlash_ne_nil {l : List Char} (hne : l ≠ [])
    (h : l.getLast? ≠ some '/') : afterLastSlash l ≠ [] := by
  rw [afterLastSlash]
  cases hr : l.reverse with
  | nil => exact absurd (by simpa using congrArg List.reverse hr) hne
  | cons c r =>
    have hc : c ≠ '/' := by
      intro hceq
      apply h
      rw [← List.head?_reverse, hr, hceq]
      rfl
    rw [List.takeWhile_cons, if_pos (by simp [hc])]
    simp

/-- Claim C8: a module's name is a deterministic pure function of its source
URL — for every (nonempty, not slash-terminated) URL, `Name` equals the last
path component of the URL with a trailing `".git"` suffix removed, so two
modules with the same URL always get the same name. -/
theorem name_eq_lastComponent (url : List Char) (h1 : url ≠ [])
    (h2 : url.getLast? ≠ some '/') :
    Name url = specModuleName url ∧
    ∀ url2, url2 = url → Name url2 = Name url := by
  refine ⟨?_, fun url2 h => by rw [h]⟩
  rw [Name, specModuleName, pathBase, if_neg h1]
  simp only [dropTrailingSlashes_eq_self h2]
  rw [if_neg (afterLastSlash_ne_nil h1 h2)]

/-- Concrete instantiation of `name_eq_lastComponent` at the URL
`"https://github.com/daedaleanai/dbt.git"`. -/
theorem name_eq_lastComponent_witness :
    Name (String.toList "https://github.com/daedaleanai/dbt.git") =
      specModuleName (String.toList "https://github.com/daedaleanai/dbt.git") ∧
    ∀ url2, url2 = String.toList "https://github.com/daedaleanai/dbt.git" →
      Name url2 = Name (String.toList "https://github.com/daedaleanai/dbt.git") :=
  name_eq_lastComponent _ (by decide) (by decide)

/-! Module-root and workspace-root search (src/unnamed/part_000,
lines 172-221).  Absolute clean paths are modelled as lists of path
components stored innermost-first: `[]` is the filesystem root `"/"`, and
`d :: rest` is the directory named `d` inside the directory `rest`.  Under
this representation Go `path.Dir` is `List.tail`.  The filesystem is an
abstract pair of predicates giving, for each directory, whether
`p/MODULE` exists as a file and whether `p/.git` exists as a directory. -/

/-- Innermost-first component list of an absolute path; `[]` is `"/"`. -/
abbrev AbsPath := List String

/-- Abstract filesystem: `hasModuleFile p` models
`util.FileExists(path.Join(p, "MODULE"))` and `hasGitDir p` models
`util.DirExists(path.Join(p, ".git"))`. -/
structure Fs where
  hasModuleFile : AbsPath → Bool
  hasGitDir : AbsPath → Bool

/-- Model of `path.Base(path.Dir(p))`: the name of the parent directory of
`p`, or `"/"` when the parent is the root (Go `path.Base("/") = "/"`). -/
def parentDirName (p : AbsPath) : String :=
  match p.tail.head? with
  | some s => s
  | none => "/"

/-- The stopping condition of the loop in `util.getModuleRoot`: a MODULE
file in `p`, or the parent directory of `p` named `DEPS`, or a `.git`
directory in `p`. -/
def stopCond (fs : Fs) (p : AbsPath) : Bool :=
  fs.hasModuleFile p || parentDirName p == "DEPS" || fs.hasGitDir p

/-- Model of `util.getModuleRoot` (src/unnamed/part_000, lines 172-185):
walk up from `p`, returning the first directory satisfying `stopCond`;
fail (`none`, the Go error return) upon reaching `"/"` without a hit. -/
def getModuleRoot (fs : Fs) : AbsPath → Option AbsPath
  | [] => if stopCond fs [] then some [] else none
  | d :: rest =>
    if stopCond fs (d :: rest) then some (d :: rest) else getModuleRoot fs rest

theorem getModuleRoot_length_le (fs : Fs) :
    ∀ p q : AbsPath, getModuleRoot fs p = some q → q.length ≤ p.length := by
  intro p
  induction p with
  | nil =>
    intro q hq
    rw [getModuleRoot] at hq
    by_cases h : stopCond fs [] = true
    · rw [if_pos h] at hq
      cases hq
      exact Nat.le_refl _
    · rw [if_neg h] at hq
      cases hq
  | cons d rest ih =>
    intro q hq
    rw [getModuleRoot] at hq
    by_cases h : stopCond fs (d :: rest) = true
    · rw [if_pos h] at hq
      cases hq
      exact Nat.le_refl _
    · rw [if_neg h] at hq
      exact Nat.le_succ_of_le (ih q hq)

theorem getModuleRoot_stop (fs : Fs) :
    ∀ p q : AbsPath, getModuleRoot fs p = some q → stopCond fs q = true := by
  intro p
  induction p with
  | nil =>
    intro q hq
    rw [getModuleRoot] at hq
    by_cases h : stopCond fs [] = true
    · rw [if_pos h] at hq
      cases hq
      exact h
    · rw [if_neg h] at hq
      cases hq
  | cons d rest ih =>
    intro q hq
    rw [getModuleRoot] at hq
    by_cases h : stopCond fs (d :: rest) = true
    · rw [if_pos h] at hq
      cases hq
      exact h
    · rw [if_neg h] at hq
      exact ih q hq

theorem getModuleRoot_none (fs : Fs) :
    ∀ p : AbsPath, getModuleRoot fs p = none → stopCond fs [] = false := by
  intro p
  induction p with
  | nil =>
    intro hq
    rw [getModuleRoot] at hq
    by_cases h : stopCond fs [] = true
    · rw [if_pos h] at hq
      cases hq
    · rw [if_neg h] at hq
      exact Bool.eq_false_iff.mpr h
  | cons d rest ih =>
    intro hq
    rw [getModuleRoot] at hq
    by_cases h : stopCond fs (d :: rest) = true
    · rw [if_pos h] at hq
      cases hq
    · rw [if_neg h] at hq
      exact ih hq

theorem parentDirName_nil : parentDirName [] = "/" := rfl

/-- Model of `util.GetWorkspaceRoot` (src/unnamed/part_000, lines 206-221),
as a function of the starting directory `p`: repeatedly find the enclosing
module root; while its parent directory is named `DEPS`, restart the search
from that parent.  `none` models the `log.Fatal` on a failed module-root
search. -/
def GetWorkspaceRoot (fs : Fs) (p : AbsPath) : Option AbsPath :=
  match h : getModuleRoot fs p with
  | none => none
  | some q =>
    if hd : parentDirName q = "DEPS" then GetWorkspaceRoot fs q.tail
    else some q
termination_by p.length
decreasing_by
  have hle := getModuleRoot_length_le fs p q h
  have hq : q ≠ [] := by
    intro he
    rw [he, parentDirName_nil] at hd
    exact absurd hd (by decide)
  cases q with
  | nil => exact absurd rfl hq
  | cons a r =>
    simp only [List.tail_cons]
    exact Nat.lt_of_lt_of_le (Nat.lt_succ_self _) hle

theorem getWorkspaceRoot_spec_aux (fs : Fs) :
    ∀ n : Nat, ∀ p : AbsPath, p.length ≤ n → ∀ q : AbsPath,
      GetWorkspaceRoot fs p = some q →
      stopCond fs q = true ∧ parentDirName q ≠ "DEPS" := by
  intro n
  induction n with
  | zero =>
    intro p hp q hq
    rw [GetWorkspaceRoot] at hq
    split at hq
    · cases hq
    · rename_i r hr
      split at hq
      · rename_i hd
        have hle := getModuleRoot_length_le fs p r hr
        have hrne : r ≠ [] := by
          intro he
          rw [he, parentDirName_nil] at hd
          exact absurd hd (by decide)
        cases r with
        | nil => exact absurd rfl hrne
        | cons a t =>
          have : (a :: t).length ≤ 0 := Nat.le_trans hle hp
          simp at this
      · rename_i hd
        cases hq
        exact ⟨getModuleRoot_stop fs p q hr, hd⟩
  | succ n ih =>
    intro p hp q hq
    rw [GetWorkspaceRoot] at hq
    split at hq
    · cases hq
    · rename_i r hr
      split at hq
      · rename_i hd
        have hle := getModuleRoot_length_le fs p r hr
        have hrne : r ≠ [] := by
          intro he
          rw [he, parentDirName_nil] at hd
          exact absurd hd (by decide)
        cases r with
        | nil => exact absurd rfl hrne
        | cons a t =>
          have ht : t.length ≤ n := by
            have : (a :: t).length ≤ n + 1 := Nat.le_trans hle hp
            simpa using this
          exact ih t ht q hq
      · rename_i hd
        cases hq
        exact ⟨getModuleRoot_stop fs p q hr, hd⟩

theorem getWorkspaceRoot_spec (fs : Fs) (p q : AbsPath)
    (hq : GetWorkspaceRoot fs p = some q) :
    stopCond fs q = true ∧ parentDirName q ≠ "DEPS" :=
  getWorkspaceRoot_spec_aux fs p.length p (Nat.le_refl _) q hq

/-- Filesystem with module roots at `/a` and `/a/b` and no `.git`
directories anywhere: two nested module roots, neither inside a `DEPS`
directory. -/
def fsNested : Fs :=
  { hasModuleFile := fun p => p == ["a"] || p == ["b", "a"]
    hasGitDir := fun _ => false }

/-- Claim C9 counterexample: with module roots at `/a` and `/a/b` (paths are
innermost-first component lists), a search started at `/a/b` returns `/a/b`,
although `/a` is a strictly outer enclosing module root whose parent
directory (the filesystem root) is not named `DEPS` — so the returned root
is not the outermost enclosing module whose parent is not named `DEPS`. -/
theorem getWorkspaceRoot_not_outermost :
    GetWorkspaceRoot fsNested ["b", "a"] = some ["b", "a"] ∧
    stopCond fsNested ["a"] = true ∧
    parentDirName ["a"] ≠ "DEPS" ∧
    (["b", "a"] : AbsPath).tail = ["a"] ∧
    (["a"] : AbsPath) ≠ ["b", "a"] := by
  refine ⟨?_, by decide, by decide, by decide, by decide⟩
  rw [GetWorkspaceRoot.eq_def]
  simp [getModuleRoot, stopCond, parentDirName, fsNested]

/-- Claim C9 (amended): the module-root and workspace-root searches
terminate on every input path — `getModuleRoot` reaches either a directory
satisfying its stopping condition (MODULE file present, parent directory
named DEPS, or a `.git` directory) or the filesystem root `"/"` and fails
there; and every directory returned by `GetWorkspaceRoot` is a directory
satisfying the module-root stopping condition whose parent directory is not
named DEPS (the first such root found by repeating the module-root search
from the parent whenever the root found is a DEPS child — not necessarily
the outermost one). -/
theorem moduleRoot_search_spec (fs : Fs) (p : AbsPath) :
    ((∃ q, getModuleRoot fs p = some q ∧ stopCond fs q = true) ∨
      (getModuleRoot fs p = none ∧ stopCond fs [] = false)) ∧
    (∀ q, GetWorkspaceRoot fs p = some q →
      stopCond fs q = true ∧ parentDirName q ≠ "DEPS") := by
  constructor
  · cases hq : getModuleRoot fs p with
    | none => exact Or.inr ⟨rfl, getModuleRoot_none fs p hq⟩
    | some q => exact Or.inl ⟨q, rfl, getModuleRoot_stop fs p q hq⟩
  · intro q hq
    exact getWorkspaceRoot_spec fs p q hq

/-- Filesystem with a single module root at `/w`. -/
def fsSingle : Fs :=
  { hasModuleFile := fun p => p == ["w"], hasGitDir := fun _ => false }

/-- Concrete instantiation of `moduleRoot_search_spec` on the filesystem
with one module root at `/w`, searching from `/w/s`: the workspace search
returns `/w` and the hypothesis of the second conjunct is discharged at
that concrete result. -/
theorem moduleRoot_search_spec_witness :
    stopCond fsSingle ["w"] = true ∧ parentDirName ["w"] ≠ "DEPS" :=
  (moduleRoot_search_spec fsSingle ["s", "w"]).2 ["w"]
    (by
      rw [GetWorkspaceRoot.eq_def]
      simp [getModuleRoot, stopCond, parentDirName, fsSingle])

/-! The JujutsuModule backend (src/unnamed/part_001).  A subprocess run is
modelled by an oracle from the program name and argument list to its
captured output; the working directory of the run is abstracted away.
`log.Fatal` (which prints and terminates the whole process) is modelled by
the `fatalExit` constructors. -/

/-- Captured outcome of one subprocess run: raw stdout and stderr, whether
the process exited with code 0, and the text of the Go `error` value when
it did not. -/
structure CmdResult where
  stdout : String
  stderr : String
  exitOk : Bool
  errMsg : String

/-- Subprocess oracle: program name and arguments to captured outcome. -/
abbrev Oracle := String → List String → CmdResult

/-- Model of `strings.TrimSuffix(s, "\n")` on Lean strings. -/
def trimNewline (s : String) : String :=
  ⟨trimSuffix s.data ['\n']⟩

/-- Model of `strings.Join(args, " ")`. -/
def joinArgs (args : List String) : String :=
  String.intercalate " " args

/-- Result of a command runner that exits the process on failure:
either the captured stdout, or an unconditional process termination
(`log.Fatal`) carrying the printed message. -/
inductive RunResult where
  | ok (stdout : String)
  | fatalExit (msg : String)
deriving DecidableEq

/-- Model of `JujutsuModule.tryRunJjCommand` (src/unnamed/part_001,
lines 128-138): run `jj` with the given arguments and return stdout and
stderr with one trailing newline stripped, plus the exit status. -/
def tryRunJjCommand (o : Oracle) (args : List String) : String × String × Bool :=
  let r := o "jj" args
  (trimNewline r.stdout, trimNewline r.stderr, r.exitOk)

/-- The message printed by `runJjCommand`'s `log.Fatal` call:
`"Failed to run jj command 'jj %s':\n%s\n%s\n%s\n"` formatted with the
joined arguments, captured stderr, captured stdout and the error text. -/
def jjFatalMessage (args : List String) (stderr stdout errMsg : String) : String :=
  "Failed to run jj command 'jj " ++ joinArgs args ++ "':\n" ++
    stderr ++ "\n" ++ stdout ++ "\n" ++ errMsg ++ "\n"

/-- Model of `JujutsuModule.runJjCommand` (src/unnamed/part_001,
lines 118-124): on a nonzero exit, `log.Fatal` with a message carrying the
captured stderr; otherwise the captured stdout. -/
def runJjCommand (o : Oracle) (args : List String) : RunResult :=
  let r := tryRunJjCommand o args
  if r.2.2 then .ok r.1
  else .fatalExit (jjFatalMessage args r.2.1 r.1 (o "jj" args).errMsg)

/-- Model of `JujutsuModule.locateGitRepo` (src/unnamed/part_001,
lines 165-167): `jj git root` through the fatal-on-failure runner. -/
def locateGitRepo (o : Oracle) : RunResult :=
  runJjCommand o ["git", "root"]

/-- Result of a `try`-style git runner, which can still terminate the
process when locating the underlying git repository fails. -/
inductive TryGitResult where
  | ok (stdout stderr : String) (exitOk : Bool)
  | fatalExit (msg : String)
deriving DecidableEq

/-- Model of `JujutsuModule.tryRunGitCommand` (src/unnamed/part_001,
lines 152-163): locate the git repository backing the jj working copy
(fatal on failure), then run `git` there, returning trimmed stdout and
stderr and the exit status. -/
def tryRunGitCommand (o : Oracle) (args : List String) : TryGitResult :=
  match locateGitRepo o with
  | .fatalExit m => .fatalExit m
  | .ok _ =>
    let r := o "git" args
    .ok (trimNewline r.stdout) (trimNewline r.stderr) r.exitOk

/-- The message printed by `runGitCommand`'s `log.Fatal` call. -/
def gitFatalMessage (args : List String) (stderr stdout errMsg : String) : String :=
  "Failed to run git command 'git " ++ joinArgs args ++ "':\n" ++
    stderr ++ "\n" ++ stdout ++ "\n" ++ errMsg ++ "\n"

/-- Model of `JujutsuModule.runGitCommand` (src/unnamed/part_001,
lines 142-148): on a nonzero git exit, `log.Fatal` with a message carrying
the captured stderr; otherwise the captured stdout. -/
def runGitCommand (o : Oracle) (args : List String) : RunResult :=
  match tryRunGitCommand o args with
  | .fatalExit m => .fatalExit m
  | .ok so se ok =>
    if ok then .ok so else .fatalExit (gitFatalMessage args se so (o "git" args).errMsg)

/-- Model of `JujutsuModule.RevParse` (src/unnamed/part_001, lines 49-51):
`git rev-list -n 1 ref` through the fatal-on-failure git runner. -/
def RevParse (o : Oracle) (ref : String) : RunResult :=
  runGitCommand o ["rev-list", "-n", "1", ref]

/-- Outcome of `Checkout`.  `ok` and `unsupported` model the outcomes the
specification prescribes (success, and a typed `Unsupported` result);
`fatalExit` models `log.Fatal`'s unconditional process termination. -/
inductive CheckoutResult where
  | ok
  | unsupported
  | fatalExit (msg : String)
deriving DecidableEq

/-- Model of `JujutsuModule.Checkout` (src/unnamed/part_001, lines 77-80):
`log.Fatal("Unable to checkout a JJ repository to ", ref)`,
unconditionally. -/
def Checkout (ref : String) : CheckoutResult :=
  .fatalExit ("Unable to checkout a JJ repository to " ++ ref)

/-- On-disk state of a module's working-copy directory. -/
inductive WorkingCopy where
  | absent
  | partialCopy
  | complete
deriving DecidableEq

/-- Model of `JujutsuModule.IsDirty` (src/unnamed/part_001, lines 54-57):
the receiver and the on-disk state are ignored and `false` is returned. -/
def IsDirty (_wc : WorkingCopy) (_localChanges : Bool) : Bool :=
  false

/-- Claim C3: for the immutable-change (jujutsu) backend, `IsDirty` returns
`false` in every state of the working copy. -/
theorem isDirty_always_false (wc : WorkingCopy) (localChanges : Bool) :
    IsDirty wc localChanges = false :=
  rfl

/-- Claim C1 counterexample: `Checkout "v1.0"` is an unconditional
`log.Fatal` process termination, not the typed `Unsupported` result the
claim prescribes. -/
theorem checkout_not_unsupported :
    Checkout "v1.0" = .fatalExit "Unable to checkout a JJ repository to v1.0" ∧
    Checkout "v1.0" ≠ .unsupported := by
  constructor
  · rfl
  · intro h
    cases h

/-- Claim C1 (amended): for the immutable-change backend, `Checkout ref`
terminates the whole process via `log.Fatal` for every ref, with a message
naming the ref; it never returns a typed `Unsupported` result (nor any
other value) to the caller. -/
theorem checkout_always_fatal (ref : String) :
    Checkout ref = .fatalExit ("Unable to checkout a JJ repository to " ++ ref) ∧
    Checkout ref ≠ .unsupported ∧ Checkout ref ≠ .ok := by
  refine ⟨rfl, ?_, ?_⟩
  · intro h
    cases h
  · intro h
    cases h

/-- The `path` field of the Go `JujutsuModule` struct. -/
structure JujutsuModuleRec where
  path : String

/-- Model of `util.RemoveDir` on the module's working-copy directory:
`os.RemoveAll` leaves nothing behind. -/
def RemoveDir (_wc : WorkingCopy) : WorkingCopy :=
  .absent

/-- Model of `util.MkdirAll` on the module path: the directory exists
afterwards but holds no working copy yet. -/
def MkdirAll (_wc : WorkingCopy) : WorkingCopy :=
  .partialCopy

/-- Effect of the `jj git clone url path` subprocess on the destination:
a complete working copy on success, a partial one on failure. -/
def cloneProcessEffect (exitOk : Bool) : WorkingCopy :=
  if exitOk then .complete else .partialCopy

/-- Model of `JujutsuModule.clone` (src/unnamed/part_001, lines 170-179):
run `jj git clone url path`; on failure remove the partial destination
directory (so the operation can be retried) and return the subprocess
error, else return no error.  The first component is the resulting
working-copy state at the module path, the second the returned error. -/
def clone (m : JujutsuModuleRec) (o : Oracle) (url : String) :
    WorkingCopy × Option String :=
  let r := o "jj" ["git", "clone", url, m.path]
  let wcAfter := cloneProcessEffect r.exitOk
  if r.exitOk then (wcAfter, none) else (RemoveDir wcAfter, some r.errMsg)

/-- Model of `createJujutsuModule` (src/unnamed/part_001, lines 20-28):
`util.MkdirAll(modulePath)` followed by `mod.clone(url)`, whose effect on
the destination supersedes the fresh directory. -/
def createJujutsuModule (m : JujutsuModuleRec) (o : Oracle) (url : String) :
    WorkingCopy × Option String :=
  let _wc1 := MkdirAll .absent
  clone m o url

/-- Claim C2: for every url and module path, if the clone subprocess fails
then the partial destination directory is removed before the error is
returned — the working copy is absent and the failure is reported as the
subprocess error — and if it succeeds the working copy exists (complete)
at the module path. -/
theorem clone_cleanup (m : JujutsuModuleRec) (o : Oracle) (url : String) :
    ((o "jj" ["git", "clone", url, m.path]).exitOk = false →
      createJujutsuModule m o url =
        (.absent, some (o "jj" ["git", "clone", url, m.path]).errMsg)) ∧
    ((o "jj" ["git", "clone", url, m.path]).exitOk = true →
      createJujutsuModule m o url = (.complete, none)) := by
  constructor
  · intro h
    simp [createJujutsuModule, clone, cloneProcessEffect, RemoveDir, MkdirAll, h]
  · intro h
    simp [createJujutsuModule, clone, cloneProcessEffect, h]

/-- Oracle whose every subprocess fails with the given stderr and error
text. -/
def failOracle (stderrText errText : String) : Oracle :=
  fun _ _ => { stdout := "", stderr := stderrText, exitOk := false, errMsg := errText }

/-- Oracle whose every subprocess succeeds with the given stdout. -/
def okOracle (stdoutText : String) : Oracle :=
  fun _ _ => { stdout := stdoutText, stderr := "", exitOk := true, errMsg := "" }

/-- Oracle answering `jj` invocations with one fixed outcome and `git`
invocations with another. -/
def jjGitOracle (jr gr : CmdResult) : Oracle :=
  fun prog _ => if prog = "jj" then jr else gr

/-- Concrete instantiation of `clone_cleanup`: a failing clone leaves the
working copy absent with the subprocess error returned, a succeeding one
leaves it complete. -/
theorem clone_cleanup_witness :
    createJujutsuModule ⟨"DEPS/dbt"⟩ (failOracle "fatal: not found" "exit status 1")
        "https://x/y.git" = (.absent, some "exit status 1") ∧
    createJujutsuModule ⟨"DEPS/dbt"⟩ (okOracle "") "https://x/y.git" =
      (.complete, none) := by
  constructor
  · exact (clone_cleanup ⟨"DEPS/dbt"⟩ (failOracle "fatal: not found" "exit status 1")
      "https://x/y.git").1 rfl
  · exact (clone_cleanup ⟨"DEPS/dbt"⟩ (okOracle "") "https://x/y.git").2 rfl

/-- Outcome of `Fetch`: the reported Boolean, unless the underlying runner
terminated the process. -/
inductive FetchResult where
  | ok (updated : Bool)
  | fatalExit (msg : String)
deriving DecidableEq

/-- Model of `JujutsuModule.Fetch` (src/unnamed/part_001, lines 66-74),
parametrized by the value its `m.IsDirty()` call returns (for this backend
that call is constantly `false`, see `IsDirty`).  Yields the fetch outcome,
whether the dirty warning was emitted, and whether the remote was contacted
(the `jj git fetch` subprocess ran).  The code reports "new commits
arrived" as a nonempty captured stdout of `jj git fetch`. -/
def Fetch (isDirty : Bool) (o : Oracle) : FetchResult × Bool × Bool :=
  if isDirty then (.ok false, true, false)
  else
    match runJjCommand o ["git", "fetch"] with
    | .fatalExit m => (.fatalExit m, false, true)
    | .ok out => (.ok (decide (0 < out.length)), false, true)

/-- Claim C4: `Fetch` pulls from the default remote and returns true exactly
when new commits arrived (nonempty `jj git fetch` output, the code's
criterion); whenever the working copy is dirty the fetch is skipped, a
warning is emitted and `Fetch` returns false without contacting the remote
— and for this backend `IsDirty` is constantly false. -/
theorem fetch_spec (d : Bool) (o : Oracle) :
    (d = true → Fetch d o = (.ok false, true, false)) ∧
    (d = false → (o "jj" ["git", "fetch"]).exitOk = true →
      Fetch d o =
        (.ok (decide (0 < (trimNewline (o "jj" ["git", "fetch"]).stdout).length)),
          false, true)) ∧
    (∀ wc localChanges, IsDirty wc localChanges = false) := by
  refine ⟨?_, ?_, fun _ _ => rfl⟩
  · intro h
    simp [Fetch, h]
  · intro hd h
    simp [Fetch, hd, runJjCommand, tryRunJjCommand, h]

/-- Concrete instantiation of `fetch_spec`: the dirty branch at an
arbitrary oracle, and the clean branch at an oracle whose fetch prints
one line. -/
theorem fetch_spec_witness :
    Fetch true (okOracle "abc\n") = (.ok false, true, false) ∧
    Fetch false (okOracle "abc\n") = (.ok true, false, true) := by
  constructor
  · exact (fetch_spec true (okOracle "abc\n")).1 rfl
  · have h := (fetch_spec false (okOracle "abc\n")).2.1 rfl rfl
    rw [h]
    rfl

/-- Claim C6: for every invocation through the non-try command runners
(`runJjCommand`, and `runGitCommand` once the underlying git repository was
located), a nonzero subprocess exit terminates the whole run — the result
is a `log.Fatal` process termination, never a value a caller could continue
from — and the captured standard-error text of the subprocess is included
verbatim (as a contiguous substring) in the reported failure message. -/
theorem runCommand_fatal_spec (o : Oracle) (args : List String) :
    ((o "jj" args).exitOk = false →
      ∃ pre post, runJjCommand o args =
        .fatalExit (pre ++ trimNewline (o "jj" args).stderr ++ post)) ∧
    ((o "jj" ["git", "root"]).exitOk = true → (o "git" args).exitOk = false →
      ∃ pre post, runGitCommand o args =
        .fatalExit (pre ++ trimNewline (o "git" args).stderr ++ post)) := by
  constructor
  · intro h
    refine ⟨"Failed to run jj command 'jj " ++ joinArgs args ++ "':\n",
      "\n" ++ trimNewline (o "jj" args).stdout ++ "\n" ++ (o "jj" args).errMsg ++ "\n",
      ?_⟩
    simp [runJjCommand, tryRunJjCommand, h, jjFatalMessage, String.append_assoc]
  · intro hroot h
    refine ⟨"Failed to run git command 'git " ++ joinArgs args ++ "':\n",
      "\n" ++ trimNewline (o "git" args).stdout ++ "\n" ++ (o "git" args).errMsg ++ "\n",
      ?_⟩
    simp [runGitCommand, tryRunGitCommand, locateGitRepo, runJjCommand,
      tryRunJjCommand, hroot, h, gitFatalMessage, String.append_assoc]

/-- Oracle where `jj` invocations succeed (printing a repository path) and
`git` invocations fail with a fixed stderr. -/
def gitFailOracle : Oracle :=
  jjGitOracle { stdout := "/w/repo/.jj/repo/store/git\n", stderr := "", exitOk := true, errMsg := "" }
    { stdout := "", stderr := "fatal: bad revision 'nope'", exitOk := false,
      errMsg := "exit status 128" }

/-- Concrete instantiation of `runCommand_fatal_spec`: a failing `jj`
invocation and a failing `git` invocation both end in a fatal message
containing the captured stderr. -/
theorem runCommand_fatal_spec_witness :
    (∃ pre post, runJjCommand (failOracle "err text" "exit status 1") ["st"] =
      .fatalExit (pre ++ trimNewline (failOracle "err text" "exit status 1" "jj" ["st"]).stderr ++ post)) ∧
    (∃ pre post, runGitCommand gitFailOracle ["rev-list"] =
      .fatalExit (pre ++ trimNewline (gitFailOracle "git" ["rev-list"]).stderr ++ post)) := by
  constructor
  · exact (runCommand_fatal_spec (failOracle "err text" "exit status 1") ["st"]).1 rfl
  · exact (runCommand_fatal_spec gitFailOracle ["rev-list"]).2 rfl rfl

/-- Claim C5 counterexample: at an oracle where the ref does not resolve
(`git rev-list` exits nonzero), `RevParse` ends in `log.Fatal` — an
unconditional termination of the whole process carrying the runner's
message — and returns nothing to its caller; there is no typed
`UnresolvedRef` error value in its codomain that the engine could route
on. -/
theorem revParse_fatal_counterexample :
    RevParse gitFailOracle "nope" =
      .fatalExit (gitFatalMessage ["rev-list", "-n", "1", "nope"]
        "fatal: bad revision 'nope'" "" "exit status 128") ∧
    ∀ s, RevParse gitFailOracle "nope" ≠ .ok s := by
  have h1 : RevParse gitFailOracle "nope" =
      .fatalExit (gitFatalMessage ["rev-list", "-n", "1", "nope"]
        "fatal: bad revision 'nope'" "" "exit status 128") := by
    simp [RevParse, runGitCommand, tryRunGitCommand, locateGitRepo, runJjCommand,
      tryRunJjCommand, gitFailOracle, jjGitOracle]
    rfl
  refine ⟨h1, fun s h => ?_⟩
  rw [h1] at h
  exact RunResult.noConfusion h

/-- Claim C5 (amended): `RevParse ref` returns the commit identifier that
`ref` resolves to (the trimmed output of `git rev-list -n 1 ref`) when the
subprocess succeeds; when `ref` does not resolve (nonzero git exit) the
whole process is terminated via `log.Fatal` with a message containing the
captured stderr — not a typed per-module `UnresolvedRef` error. -/
theorem revParse_spec (o : Oracle) (ref : String)
    (hroot : (o "jj" ["git", "root"]).exitOk = true) :
    ((o "git" ["rev-list", "-n", "1", ref]).exitOk = true →
      RevParse o ref = .ok (trimNewline (o "git" ["rev-list", "-n", "1", ref]).stdout)) ∧
    ((o "git" ["rev-list", "-n", "1", ref]).exitOk = false →
      ∃ pre post, RevParse o ref =
        .fatalExit (pre ++ trimNewline (o "git" ["rev-list", "-n", "1", ref]).stderr ++ post)) := by
  constructor
  · intro h
    simp [RevParse, runGitCommand, tryRunGitCommand, locateGitRepo, runJjCommand,
      tryRunJjCommand, hroot, h]
  · intro h
    refine ⟨"Failed to run git command 'git " ++ joinArgs ["rev-list", "-n", "1", ref] ++ "':\n",
      "\n" ++ trimNewline (o "git" ["rev-list", "-n", "1", ref]).stdout ++ "\n" ++
        (o "git" ["rev-list", "-n", "1", ref]).errMsg ++ "\n", ?_⟩
    simp [RevParse, runGitCommand, tryRunGitCommand, locateGitRepo, runJjCommand,
      tryRunJjCommand, hroot, h, gitFatalMessage, String.append_assoc]

/-- Oracle where `jj` invocations succeed and `git rev-list` resolves the
ref, printing one commit hash. -/
def gitOkOracle : Oracle :=
  jjGitOracle { stdout := "/w/repo/.jj/repo/store/git\n", stderr := "", exitOk := true, errMsg := "" }
    { stdout := "0123abcd\n", stderr := "", exitOk := true, errMsg := "" }

/-- Concrete instantiation of `revParse_spec`: a resolving ref yields the
printed commit hash, a non-resolving ref ends in a fatal message carrying
the stderr. -/
theorem revParse_spec_witness :
    RevParse gitOkOracle "HEAD" = .ok "0123abcd" ∧
    (∃ pre post, RevParse gitFailOracle "nope2" =
      .fatalExit (pre ++ trimNewline (gitFailOracle "git" ["rev-list", "-n", "1", "nope2"]).stderr ++ post)) := by
  constructor
  · have h := (revParse_spec gitOkOracle "HEAD" rfl).1 rfl
    rw [h]
    rfl
  · exact (revParse_spec gitFailOracle "nope2" rfl).2 rfl

/-- Whitespace as Go `strings.TrimSpace` trims it (the ASCII cases of
`unicode.IsSpace`). -/
def isSpace (c : Char) : Bool :=
  c == ' ' || c == '\t' || c == '\n' || c == '\x0b' || c == '\x0c' || c == '\r'

/-- Model of Go `strings.TrimSpace`: drop whitespace from both ends. -/
def trimSpace (s : String) : String :=
  ⟨((s.data.dropWhile isSpace).reverse.dropWhile isSpace).reverse⟩

/-- Splitting a character list at every occurrence of `sep`, keeping empty
segments, as Go `strings.Split` does. -/
def splitOnChar (sep : Char) : List Char → List (List Char)
  | [] => [[]]
  | c :: rest =>
    match splitOnChar sep rest with
    | [] => [[]]
    | s :: ss => if c == sep then [] :: s :: ss else (c :: s) :: ss

/-- Model of `strings.Split(s, "\n")`. -/
def splitLines (s : String) : List String :=
  (splitOnChar '\n' s.data).map String.mk

/-- The loop body of `GetCommitsBetweenRefs`: trim each line, skip the
empty ones, keep the rest in order. -/
def collectNonEmptyLines : List String → List String
  | [] => []
  | line :: rest =>
    let t := trimSpace line
    if t.length = 0 then collectNonEmptyLines rest else t :: collectNonEmptyLines rest

/-- Outcome of `GetCommitsBetweenRefs`: the collected commit list together
with the subprocess exit status (the Go function returns both the list and
the error), unless the runner terminated the process. -/
inductive CommitsResult where
  | ok (commits : List String) (exitOk : Bool)
  | fatalExit (msg : String)
deriving DecidableEq

/-- Model of `JujutsuModule.GetCommitsBetweenRefs` (src/unnamed/part_001,
lines 102-114): run `git rev-list <base>..<head>` (both trimmed), then
collect the nonempty trimmed lines of its stdout in order. -/
def GetCommitsBetweenRefs (o : Oracle) (base head : String) : CommitsResult :=
  match tryRunGitCommand o ["rev-list", trimSpace base ++ ".." ++ trimSpace head] with
  | .fatalExit m => .fatalExit m
  | .ok so _ ok => .ok (collectNonEmptyLines (splitLines so)) ok

theorem collectNonEmptyLines_ne_empty :
    ∀ ls : List String, ∀ c ∈ collectNonEmptyLines ls, c ≠ "" := by
  intro ls
  induction ls with
  | nil =>
    intro c hc
    cases hc
  | cons line rest ih =>
    intro c hc
    rw [collectNonEmptyLines] at hc
    by_cases h : (trimSpace line).length = 0
    · rw [if_pos h] at hc
      exact ih c hc
    · rw [if_neg h] at hc
      cases hc with
      | head =>
        intro he
        rw [he] at h
        exact h rfl
      | tail _ hm => exact ih c hm

/-- Claim C7: on the non-fatal path, `GetCommitsBetweenRefs base head`
returns the ordered finite list of commit identifiers that `git rev-list
base..head` reports — exactly the commits reachable from head but not from
base, in the subprocess's order — with no empty entries, and returns the
empty list when the subprocess output is empty, as it is when base and head
denote the same commit. -/
theorem getCommitsBetweenRefs_spec (o : Oracle) (base head : String)
    (hroot : (o "jj" ["git", "root"]).exitOk = true) :
    (GetCommitsBetweenRefs o base head =
      .ok (collectNonEmptyLines (splitLines (trimNewline
            (o "git" ["rev-list", trimSpace base ++ ".." ++ trimSpace head]).stdout)))
        (o "git" ["rev-list", trimSpace base ++ ".." ++ trimSpace head]).exitOk) ∧
    (∀ c ∈ collectNonEmptyLines (splitLines (trimNewline
        (o "git" ["rev-list", trimSpace base ++ ".." ++ trimSpace head]).stdout)),
      c ≠ "") ∧
    (trimNewline (o "git" ["rev-list", trimSpace base ++ ".." ++ trimSpace head]).stdout = "" →
      GetCommitsBetweenRefs o base head =
        .ok [] (o "git" ["rev-list", trimSpace base ++ ".." ++ trimSpace head]).exitOk) := by
  have hmain : GetCommitsBetweenRefs o base head =
      .ok (collectNonEmptyLines (splitLines (trimNewline
            (o "git" ["rev-list", trimSpace base ++ ".." ++ trimSpace head]).stdout)))
        (o "git" ["rev-list", trimSpace base ++ ".." ++ trimSpace head]).exitOk := by
    simp [GetCommitsBetweenRefs, tryRunGitCommand, locateGitRepo, runJjCommand,
      tryRunJjCommand, hroot]
  refine ⟨hmain, collectNonEmptyLines_ne_empty _, fun he => ?_⟩
  rw [hmain, he]
  rfl

/-- Oracle where `jj` succeeds and `git rev-list` prints two commits with a
blank and a padded line in between. -/
def commitsOracle : Oracle :=
  jjGitOracle { stdout := "/w/repo/.jj/repo/store/git\n", stderr := "", exitOk := true, errMsg := "" }
    { stdout := "abc\n\n def\n", stderr := "", exitOk := true, errMsg := "" }

/-- Oracle where `jj` succeeds and `git rev-list` prints nothing (as when
base and head denote the same commit). -/
def noCommitsOracle : Oracle :=
  jjGitOracle { stdout := "/w/repo/.jj/repo/store/git\n", stderr := "", exitOk := true, errMsg := "" }
    { stdout := "", stderr := "", exitOk := true, errMsg := "" }

/-- Concrete instantiation of `getCommitsBetweenRefs_spec`: two printed
commits come back trimmed, in order, without the empty line; an empty
rev-list output yields the empty list. -/
theorem getCommitsBetweenRefs_spec_witness :
    GetCommitsBetweenRefs commitsOracle "v1 " " v2" = .ok ["abc", "def"] true ∧
    GetCommitsBetweenRefs noCommitsOracle "v1" "v1" = .ok [] true := by
  constructor
  · have h := (getCommitsBetweenRefs_spec commitsOracle "v1 " " v2" rfl).1
    rw [h]
    decide
  · have h := (getCommitsBetweenRefs_spec noCommitsOracle "v1" "v1" rfl).2.2 rfl
    rw [h]
    decide

end Dbt
